import Mathlib

/-!
# Crossword extraction pipeline: shallow embedding and verification

This file embeds the crossword-extraction pipeline of the repository
(`api/parse-crossword.ts`, mirrored by the dev middleware in `vite.config.ts`):
`transformLandingAIResponse` together with its helper parsers
`parseTableMarkdown`, `parseFigureDescription`, `deriveCluePositions` and
`parseCluesFromText`.

Strings are modelled as `List Char`; the JavaScript regular expressions used by
the source are embedded as hand-written scanners whose behaviour matches the
leftmost-match / backtracking semantics of the concrete regexes on the inputs
the code feeds them.  JavaScript objects used as string-keyed dictionaries are
modelled as association lists with update-in-place-or-append assignment
(`setKey`), which matches object-literal semantics for every observation the
pipeline makes (lookup, emptiness, key listing up to the numeric sort applied
afterwards).
-/

/-! ## Character classes (ASCII fragments of the JS classes actually exercised) -/

/-- JS digit class available to a regex. -/
def isDigitC (c : Char) : Bool := 48 ≤ c.toNat ∧ c.toNat ≤ 57

/-- ASCII part of the JS whitespace class used by trim and the regex class. -/
def isWsC (c : Char) : Bool :=
  c = ' ' ∨ c = '\t' ∨ c = '\n' ∨ c = '\r' ∨ c.toNat = 11 ∨ c.toNat = 12

/-- JS regex word character, as used by word boundaries. -/
def isWordC (c : Char) : Bool :=
  (48 ≤ c.toNat ∧ c.toNat ≤ 57) ∨ (65 ≤ c.toNat ∧ c.toNat ≤ 90) ∨
  (97 ≤ c.toNat ∧ c.toNat ≤ 122) ∨ c = '_'

def isUpperC (c : Char) : Bool := 65 ≤ c.toNat ∧ c.toNat ≤ 90

/-- ASCII lowercasing, as performed by a case-insensitive regex comparison. -/
def lowerC (c : Char) : Char :=
  if 65 ≤ c.toNat ∧ c.toNat ≤ 90 then Char.ofNat (c.toNat + 32) else c

/-- A character a JS dot can match (anything but a line terminator). -/
def notNLC (c : Char) : Bool := ¬ (c = '\n' ∨ c = '\r')

/-! ## Numerals -/

/-- Value of a digit string, as produced by parseInt or Number on a string of
decimal digits (the only shapes the pipeline feeds them). -/
def parseNatC (s : List Char) : Nat := s.foldl (fun a c => 10 * a + (c.toNat - 48)) 0

def natToCharsAux : Nat → Nat → List Char
  | 0, _ => []
  | fuel+1, n =>
    if n < 10 then [Char.ofNat (48 + n)]
    else natToCharsAux fuel (n / 10) ++ [Char.ofNat (48 + n % 10)]

/-- Decimal rendering of a natural number, as a JS template literal renders it. -/
def natToChars (n : Nat) : List Char := natToCharsAux (n + 1) n

/-- Position key, the source's template literal for a row and a column. -/
def posKey (r c : Nat) : String := String.mk (natToChars r ++ [','] ++ natToChars c)

/-! ## List-of-characters utilities -/

/-- Literal prefix test. -/
def listPrefix : List Char → List Char → Bool
  | [], _ => true
  | _ :: _, [] => false
  | p :: ps, c :: cs => p = c ∧ listPrefix ps cs

/-- Case-insensitive literal prefix test (for regexes carrying the i flag). -/
def ciPrefix : List Char → List Char → Bool
  | [], _ => true
  | _ :: _, [] => false
  | p :: ps, c :: cs => lowerC p = lowerC c ∧ ciPrefix ps cs

/-- Split at the first occurrence of a literal pattern: if the pattern occurs,
returns the part before it and the part after it. -/
def splitFirst (pat : List Char) : List Char → Option (List Char × List Char)
  | [] => if listPrefix pat [] then some ([], []) else none
  | c :: rest =>
    if listPrefix pat (c :: rest) then some ([], (c :: rest).drop pat.length)
    else (splitFirst pat rest).map (fun p => (c :: p.1, p.2))

/-- Substring test, the semantics of String.prototype.includes. -/
def containsSub (pat s : List Char) : Bool := (splitFirst pat s).isSome

/-- Lowercase every character (to run a case-insensitive substring test). -/
def lowerList (s : List Char) : List Char := s.map lowerC

/-- JS String.prototype.trim (on the ASCII whitespace the inputs contain). -/
def trimC (s : List Char) : List Char :=
  ((s.dropWhile isWsC).reverse.dropWhile isWsC).reverse

/-- JS String.prototype.split on a single-character separator. -/
def splitOnC (sep : Char) : List Char → List (List Char)
  | [] => [[]]
  | c :: rest =>
    if c = sep then [] :: splitOnC sep rest
    else
      match splitOnC sep rest with
      | h :: t => (c :: h) :: t
      | [] => [[c]]

/-! ## Association lists for JS object dictionaries -/

/-- Lookup of a string key in a JS object dictionary. -/
def getKey {α : Type} : List (String × α) → String → Option α
  | [], _ => none
  | (k, v) :: rest, key => if k = key then some v else getKey rest key

/-- Key assignment on a JS object dictionary: overwrites an existing binding in
place, otherwise appends the new binding. -/
def setKey {α : Type} : List (String × α) → String → α → List (String × α)
  | [], key, v => [(key, v)]
  | (k, w) :: rest, key, v =>
    if k = key then (k, v) :: rest else (k, w) :: setKey rest key v

/-! ## Embedded regex scanners

Each scanner implements one concrete regex of the source.  Fuel arguments are
initialised with the length of the scanned string; every recursive step of a
fuelled scanner consumes at least one character of it, so the fuel never runs
out before the scan completes. -/

/-- All matches of the global regex finding tr elements: a literal open tag,
a shortest (non-greedy, dotall) body, a literal close tag.  If the open tag
occurs with no close tag after it, no later start position can match either. -/
def matchAllTrAux : Nat → List Char → List (List Char)
  | 0, _ => []
  | fuel+1, s =>
    match splitFirst ('<' :: 't' :: 'r' :: '>' :: []) s with
    | none => []
    | some (_, afterOpen) =>
      match splitFirst ('<' :: '/' :: 't' :: 'r' :: '>' :: []) afterOpen with
      | none => []
      | some (mid, afterClose) =>
        (('<' :: 't' :: 'r' :: '>' :: []) ++ mid ++ ('<' :: '/' :: 't' :: 'r' :: '>' :: []))
          :: matchAllTrAux fuel afterClose

def matchAllTr (s : List Char) : List (List Char) := matchAllTrAux s.length s

/-- All matches of the global regex finding td elements: the literal open-tag
head, any characters other than the closing angle bracket, that bracket, a
shortest body, the literal close tag. -/
def matchAllTdAux : Nat → List Char → List (List Char)
  | 0, _ => []
  | fuel+1, s =>
    match splitFirst ('<' :: 't' :: 'd' :: []) s with
    | none => []
    | some (_, afterTd) =>
      match splitFirst ['>'] afterTd with
      | none => []
      | some (attrs, afterGt) =>
        match splitFirst ('<' :: '/' :: 't' :: 'd' :: '>' :: []) afterGt with
        | none => []
        | some (mid, afterClose) =>
          (('<' :: 't' :: 'd' :: []) ++ attrs ++ ['>'] ++ mid
              ++ ('<' :: '/' :: 't' :: 'd' :: '>' :: []))
            :: matchAllTdAux fuel afterClose

def matchAllTd (s : List Char) : List (List Char) := matchAllTdAux s.length s

/-- First match of the id-attribute regex: the literal head, then one or more
characters other than a double quote, then the closing quote; the capture is
returned.  An occurrence followed directly by a quote cannot match, and the
scan resumes at the next position, as a regex engine does. -/
def extractId : List Char → Option (List Char)
  | [] => none
  | c :: rest =>
    if listPrefix ('i' :: 'd' :: '=' :: '"' :: []) (c :: rest) then
      match splitFirst ['"'] ((c :: rest).drop 4) with
      | some (b, _) => if b = [] then extractId rest else some b
      | none => none
    else extractId rest

/-- Global replacement deleting every tag: an open bracket, one or more
characters other than a close bracket, a close bracket.  An open bracket
followed directly by a close bracket (or never closed) is kept. -/
def stripTagsAux : Nat → List Char → List Char
  | 0, _ => []
  | _+1, [] => []
  | fuel+1, c :: rest =>
    if c = '<' then
      match splitFirst ['>'] rest with
      | some (b, a) => if b = [] then c :: stripTagsAux fuel rest else stripTagsAux fuel a
      | none => c :: stripTagsAux fuel rest
    else c :: stripTagsAux fuel rest

def stripTags (s : List Char) : List Char := stripTagsAux s.length s

/-- Leading-digits regex anchored at the start: the capture, when the first
character is a digit, is the maximal digit prefix. -/
def leadingDigits (s : List Char) : Option (List Char) :=
  let d := s.takeWhile isDigitC
  if d = [] then none else some d

/-- Word boundary to the left of a word character: the previous character is
absent or not a word character. -/
def boundaryBefore : Option Char → Bool
  | none => true
  | some p => ¬ isWordC p

/-- Word boundary to the right of a word character: the next character is
absent or not a word character. -/
def boundaryAfter : List Char → Bool
  | [] => true
  | r :: _ => ¬ isWordC r

/-- First match of the isolated-capital regex: an uppercase letter carrying a
word boundary on both sides.  The letter is a word character, so the boundary
before it holds exactly when the previous character is absent or not a word
character, and symmetrically after it. -/
def isolatedUpperAux (prev : Option Char) : List Char → Option Char
  | [] => none
  | c :: rest =>
    if isUpperC c ∧ boundaryBefore prev ∧ boundaryAfter rest then some c
    else isolatedUpperAux (some c) rest

def isolatedUpper (s : List Char) : Option Char := isolatedUpperAux none s

/-- Case-insensitive whole-word test (the direction regexes): some position
carries the word with a word boundary on each side. -/
def hasWordCIAux (w : List Char) (prev : Option Char) : List Char → Bool
  | [] => false
  | c :: rest =>
    (boundaryBefore prev && ciPrefix w (c :: rest)
      && boundaryAfter ((c :: rest).drop w.length))
    || hasWordCIAux w (some c) rest

def hasWordCI (w s : List Char) : Bool := hasWordCIAux w none s

/-- The purely-numeric-token regex: optional whitespace, one or more digits
(captured), optional whitespace, anchored at both ends. -/
def pureNumDigits (s : List Char) : Option (List Char) :=
  let t := s.dropWhile isWsC
  let d := t.takeWhile isDigitC
  if d = [] then none
  else if (t.drop d.length).all isWsC then some d else none

/-- The clue-line regex: digits, an optional dot, whitespace, then a captured
remainder running to the end of the line.  Backtracking on the digit run and
the optional dot can never succeed (the character they would hand back is
never whitespace), so both are committed greedily; the whitespace run hands
characters back to the capture only when the line would otherwise end, and the
capture cannot cross a line terminator. -/
def matchClueLine (s : List Char) : Option (List Char × List Char) :=
  let d := s.takeWhile isDigitC
  if d = [] then none else
  let r1 := s.drop d.length
  let r2 := match r1 with | '.' :: t => t | _ => r1
  let w := r2.takeWhile isWsC
  let len := r2.length
  if len = 0 then none else
  let k := min w.length (len - 1)
  if k = 0 then none
  else
    let g := r2.drop k
    if g.all notNLC then some (d, g) else none

/-- Index of the last character a JS dot can match, if any. -/
def lastNonNL : List Char → Option Nat
  | [] => none
  | c :: rest =>
    match lastNonNL rest with
    | some k => some (k + 1)
    | none => if notNLC c then some 0 else none

/-- The tail of the row regex after the colon: a greedy whitespace run, then a
greedy non-empty capture of dot-matchable characters.  When the whitespace run
reaches the end of the string the star backtracks to the last position holding
a character the dot can match.  Returns the capture and the remainder after
the full match. -/
def dotPlusFrom (t : List Char) : Option (List Char × List Char) :=
  let w := t.takeWhile isWsC
  let rest := t.drop w.length
  match rest with
  | _ :: _ =>
    let g := rest.takeWhile notNLC
    some (g, rest.drop g.length)
  | [] =>
    match lastNonNL w with
    | some k =>
      let g := (t.drop k).takeWhile notNLC
      some (g, t.drop (k + g.length))
    | none => none

/-- One attempt of the row regex at the current position: the word
case-insensitively, whitespace, digits (the first capture, unused by the
source), a colon, then the cell-list capture. -/
def tryMatchRowAt (s : List Char) : Option (List Char × List Char) :=
  if ciPrefix ('r' :: 'o' :: 'w' :: []) s then
    let t1 := s.drop 3
    let w1 := t1.takeWhile isWsC
    if w1 = [] then none else
    let t2 := t1.drop w1.length
    let d := t2.takeWhile isDigitC
    if d = [] then none else
    match t2.drop d.length with
    | ':' :: t3 => dotPlusFrom t3
    | _ => none
  else none

/-- The exec loop over the global row regex: successive leftmost matches, the
scan resuming after each match, advancing one position after each failed
attempt. -/
def scanRowsAux : Nat → List Char → List (List Char)
  | 0, _ => []
  | _+1, [] => []
  | fuel+1, c :: rest =>
    match tryMatchRowAt (c :: rest) with
    | some (g, after) => g :: scanRowsAux fuel after
    | none => scanRowsAux fuel rest

def scanRows (s : List Char) : List (List Char) := scanRowsAux s.length s

/-- Check for the wrapper-regex tail after the colon: a whitespace run then
one of the two literal terminators (neither starts with whitespace, so only
the full run can precede a match). -/
def wrapperTail (s : List Char) : Bool :=
  let t := s.dropWhile isWsC
  listPrefix ('t' :: 'a' :: 'b' :: 'l' :: 'e' :: ':' :: ':' :: '>' :: []) t
    ∨ listPrefix ('f' :: 'i' :: 'g' :: 'u' :: 'r' :: 'e' :: ':' :: ':' :: '>' :: []) t

/-- Inner scan of the wrapper regex: the shortest non-empty dotall capture
followed by a colon and the tail. -/
def wrapperInner (acc : List Char) : List Char → Option (List Char)
  | [] => none
  | c :: rest =>
    if c = ':' ∧ acc ≠ [] ∧ wrapperTail rest then some acc
    else wrapperInner (acc ++ [c]) rest

/-- First match of the wrapper regex, returning its capture. -/
def extractWrapped : List Char → Option (List Char)
  | [] => none
  | c :: rest =>
    if listPrefix ('<' :: ':' :: ':' :: []) (c :: rest) then
      match wrapperInner [] ((c :: rest).drop 3) with
      | some content => some content
      | none => extractWrapped rest
    else extractWrapped rest

/-- The wide-by alternative of the size regex, after its optional plural s:
whitespace, the first word, whitespace, the second word, all
case-insensitively; returns the remainder. -/
def wideBy (u : List Char) : Option (List Char) :=
  let w1 := u.takeWhile isWsC
  if w1 = [] then none else
  let u2 := u.drop w1.length
  if ciPrefix ('w' :: 'i' :: 'd' :: 'e' :: []) u2 then
    let u3 := u2.drop 4
    let w2 := u3.takeWhile isWsC
    if w2 = [] then none else
    let u4 := u3.drop w2.length
    if ciPrefix ('b' :: 'y' :: []) u4 then some (u4.drop 2) else none
  else none

/-- The cells-wide-by alternative: the word case-insensitively, a greedy
optional plural s (retried without it when the remainder fails), then the
wide-by tail. -/
def afterCells (t : List Char) : Option (List Char) :=
  if ciPrefix ('c' :: 'e' :: 'l' :: 'l' :: []) t then
    let t1 := t.drop 4
    match t1 with
    | c :: r =>
      if lowerC c = 's' then
        match wideBy r with
        | some rest => some rest
        | none => wideBy t1
      else wideBy t1
    | [] => wideBy t1
  else none

/-- One attempt of the size regex at the current position: digits, optional
whitespace, either alternative (the single letter tried first, the longer
alternative on failure of its continuation), optional whitespace, digits. -/
def trySizeAt (s : List Char) : Option (Nat × Nat) :=
  let d1 := s.takeWhile isDigitC
  if d1 = [] then none else
  let t := (s.drop d1.length).dropWhile isWsC
  let second : List Char → Option (Nat × Nat) := fun u =>
    let u2 := u.dropWhile isWsC
    let d2 := u2.takeWhile isDigitC
    if d2 = [] then none else some (parseNatC d1, parseNatC d2)
  match t with
  | c :: r =>
    if lowerC c = 'x' then
      match second r with
      | some res => some res
      | none => (afterCells t).bind second
    else (afterCells t).bind second
  | [] => none

/-- First match of the size regex anywhere in the string. -/
def scanSize : List Char → Option (Nat × Nat)
  | [] => none
  | c :: rest =>
    match trySizeAt (c :: rest) with
    | some res => some res
    | none => scanSize rest

/-! ## Data model

An absent chunks array or grounding object in the raw response behaves, for
every observation the pipeline makes, as the empty collection (optional
chaining yields undefined from an absent array, and the grounding is defaulted
to an empty object), so both are modelled as plain lists. -/

structure Chunk where
  type : String
  markdown : String
deriving DecidableEq

structure GroundingEntry where
  position : Option (Nat × Nat)
deriving DecidableEq

structure RawParseResponse where
  chunks : List Chunk
  grounding : List (String × GroundingEntry)
deriving DecidableEq

structure GridData where
  gridSize : Nat × Nat
  blackCells : List (Nat × Nat)
  clueNumbers : List (String × Nat)
  preFilledLetters : List (String × String)
deriving DecidableEq

structure ClueSet where
  acrossClues : List (String × String)
  downClues : List (String × String)
deriving DecidableEq

structure TransformedResponse where
  gridSize : Nat × Nat
  blackCells : List (Nat × Nat)
  clueNumbers : List (String × Nat)
  preFilledLetters : List (String × String)
  acrossClues : List (String × String)
  downClues : List (String × String)
deriving DecidableEq

/-! ## Table grid parser (parseTableMarkdown of the serverless function) -/

/-- Accumulated state of the row/cell scan: the width cell of gridSize and the
three output collections (the height is set before the loop and never touched
by it). -/
structure TableAcc where
  width : Nat
  blackCells : List (Nat × Nat)
  clueNumbers : List (String × Nat)
  preFilledLetters : List (String × String)
deriving DecidableEq

/-- Body of the cell loop.  A cell with no id attribute is skipped.  With a
grounding position, the position is ground truth and the cell can contribute a
black cell, a clue number and a pre-filled letter; without one, the literal
scan position is used and only a black cell and a clue number can be
contributed. -/
def processTableCell (grounding : List (String × GroundingEntry)) (rowIndex : Nat)
    (colIndex : Nat) (cell : List Char) (acc : TableAcc) : TableAcc :=
  match extractId cell with
  | none => acc
  | some cid =>
    let cellContent := trimC (stripTags cell)
    match (getKey grounding (String.mk cid)).bind (fun e => e.position) with
    | some (r, c) =>
      let acc :=
        if containsSub ('d' :: 'a' :: 'r' :: 'k' :: []) cellContent
            || containsSub ('b' :: 'l' :: 'a' :: 'c' :: 'k' :: []) cellContent then
          { acc with blackCells := acc.blackCells ++ [(r, c)] }
        else acc
      let acc :=
        match leadingDigits cellContent with
        | some ds =>
          if ¬ containsSub ('s' :: 'q' :: 'u' :: 'a' :: 'r' :: 'e' :: []) cellContent then
            { acc with clueNumbers := setKey acc.clueNumbers (posKey r c) (parseNatC ds) }
          else acc
        | none => acc
      let acc :=
        match isolatedUpper cellContent with
        | some L =>
          if ¬ containsSub ('s' :: 'q' :: 'u' :: 'a' :: 'r' :: 'e' :: []) cellContent then
            { acc with preFilledLetters := setKey acc.preFilledLetters (posKey r c) (String.mk [L]) }
          else acc
        | none => acc
      acc
    | none =>
      let acc :=
        if containsSub ('d' :: 'a' :: 'r' :: 'k' :: []) cellContent
            || containsSub ('b' :: 'l' :: 'a' :: 'c' :: 'k' :: []) cellContent then
          { acc with blackCells := acc.blackCells ++ [(rowIndex, colIndex)] }
        else acc
      match leadingDigits cellContent with
      | some ds =>
        if ¬ containsSub ('s' :: 'q' :: 'u' :: 'a' :: 'r' :: 'e' :: []) cellContent then
          { acc with clueNumbers := setKey acc.clueNumbers (posKey rowIndex colIndex) (parseNatC ds) }
        else acc
      | none => acc

/-- The forEach over the cells of one row, with its running cell index. -/
def processCellsFrom (grounding : List (String × GroundingEntry)) (rowIndex : Nat) :
    List (List Char) → Nat → TableAcc → TableAcc
  | [], _, acc => acc
  | cell :: rest, colIndex, acc =>
    processCellsFrom grounding rowIndex rest (colIndex + 1)
      (processTableCell grounding rowIndex colIndex cell acc)

/-- Body of the row loop: the width is set to this row's cell count when still
zero, then the cells are scanned. -/
def processTableRow (grounding : List (String × GroundingEntry)) (rowIndex : Nat)
    (row : List Char) (acc : TableAcc) : TableAcc :=
  let cells := matchAllTd row
  let acc := if acc.width = 0 then { acc with width := cells.length } else acc
  processCellsFrom grounding rowIndex cells 0 acc

/-- The forEach over the rows, with its running row index. -/
def processRowsFrom (grounding : List (String × GroundingEntry)) :
    List (List Char) → Nat → TableAcc → TableAcc
  | [], _, acc => acc
  | row :: rest, rowIndex, acc =>
    processRowsFrom grounding rest (rowIndex + 1)
      (processTableRow grounding rowIndex row acc)

def parseTableMarkdown (markdown : String) (grounding : List (String × GroundingEntry)) :
    GridData :=
  let rows := matchAllTr markdown.data
  let acc := processRowsFrom grounding rows 0 ⟨0, [], [], []⟩
  { gridSize := (acc.width, rows.length)
    blackCells := acc.blackCells
    clueNumbers := acc.clueNumbers
    preFilledLetters := acc.preFilledLetters }

/-! ## Figure grid parser (parseFigureDescription) -/

/-- The parsed structured rows: each exec-loop capture split on commas, every
token trimmed. -/
def figureParsedRows (description : List Char) : List (List (List Char)) :=
  (scanRows description).map (fun cs => (splitOnC ',' cs).map trimC)

/-- Whether a row contains a purely numeric token. -/
def rowHasNum (row : List (List Char)) : Bool :=
  row.any (fun c => (pureNumDigits c).isSome)

/-- Count of the flags at even indices that are set (the filter over the flag
array with its index). -/
def countEvenTrue : List Bool → Nat → Nat
  | [], _ => 0
  | b :: rest, i => (if i % 2 = 0 ∧ b then 1 else 0) + countEvenTrue rest (i + 1)

/-- Count of the flags at odd indices that are set. -/
def countOddTrue : List Bool → Nat → Nat
  | [], _ => 0
  | b :: rest, i => (if i % 2 = 1 ∧ b then 1 else 0) + countOddTrue rest (i + 1)

/-- The filter keeping elements at even indices. -/
def filterEvenIdx {α : Type} : List α → Nat → List α
  | [], _ => []
  | x :: rest, i =>
    if i % 2 = 0 then x :: filterEvenIdx rest (i + 1) else filterEvenIdx rest (i + 1)

/-- The row-doubling predicate.  The source compares the row count against
cols * 1.8 in IEEE double arithmetic; on natural-number operands that
comparison coincides with the exact rational comparison 5 * rows ≥ 9 * cols,
because the relative error of the rounded product (about 2 ulps of 1.8) is far
below the distance from 9 * cols / 5 to the nearest distinct double, and a
product that lands on a representable integer rounds to exactly that
integer. -/
def isDoubledRows (parsedRows : List (List (List Char))) (cols : Nat) : Bool :=
  let rowHasNumber := parsedRows.map rowHasNum
  let evenWithNums := countEvenTrue rowHasNumber 0
  let oddWithNums := countOddTrue rowHasNumber 0
  (5 * parsedRows.length ≥ 9 * cols) ∧ evenWithNums > 0 ∧ oddWithNums = 0

/-- Body of the figure cell loop on the pair of the black-cell list and the
clue-number dictionary. -/
def figCell (rowIdx colIdx : Nat) (cell : List Char)
    (st : List (Nat × Nat) × List (String × Nat)) :
    List (Nat × Nat) × List (String × Nat) :=
  let st :=
    if containsSub ('b' :: 'l' :: 'a' :: 'c' :: 'k' :: []) (lowerList cell) then
      (st.1 ++ [(rowIdx, colIdx)], st.2)
    else st
  match pureNumDigits cell with
  | some ds => (st.1, setKey st.2 (posKey rowIdx colIdx) (parseNatC ds))
  | none => st

def figCellsFrom (rowIdx : Nat) :
    List (List Char) → Nat → List (Nat × Nat) × List (String × Nat) →
    List (Nat × Nat) × List (String × Nat)
  | [], _, st => st
  | cell :: rest, colIdx, st =>
    figCellsFrom rowIdx rest (colIdx + 1) (figCell rowIdx colIdx cell st)

def figRowsFrom :
    List (List (List Char)) → Nat → List (Nat × Nat) × List (String × Nat) →
    List (Nat × Nat) × List (String × Nat)
  | [], _, st => st
  | row :: rest, rowIdx, st =>
    figRowsFrom rest (rowIdx + 1) (figCellsFrom rowIdx row 0 st)

def parseFigureDescription (markdown : String) : GridData :=
  let md := markdown.data
  let description := (extractWrapped md).getD md
  let parsedRows := figureParsedRows description
  match parsedRows with
  | [] =>
    match scanSize description with
    | some (a, b) =>
      { gridSize := (a, b), blackCells := [], clueNumbers := [], preFilledLetters := [] }
    | none =>
      { gridSize := (0, 0), blackCells := [], clueNumbers := [], preFilledLetters := [] }
  | r0 :: _ =>
    let cols := r0.length
    let effectiveRows :=
      if isDoubledRows parsedRows cols then filterEvenIdx parsedRows 0 else parsedRows
    let st := figRowsFrom effectiveRows 0 ([], [])
    { gridSize := ((effectiveRows.headD []).length, effectiveRows.length)
      blackCells := st.1
      clueNumbers := st.2
      preFilledLetters := [] }

/-! ## Clue-position deriver (deriveCluePositions) -/

def isBlackIn (blackCells : List (Nat × Nat)) (r c : Nat) : Bool :=
  blackCells.any (fun p => p.1 = r ∧ p.2 = c)

/-- Across word start cells in reading order: non-black, left neighbour
off-grid or black, right neighbour on-grid and non-black.  The left-neighbour
test short-circuits on the left edge, so the column subtraction is guarded. -/
def acrossStarts (width height : Nat) (blackCells : List (Nat × Nat)) :
    List (Nat × Nat) :=
  (List.range height).flatMap (fun r =>
    (List.range width).filterMap (fun c =>
      if isBlackIn blackCells r c then none
      else if (c = 0 ∨ isBlackIn blackCells r (c - 1))
          ∧ (c + 1 < width ∧ ¬ isBlackIn blackCells r (c + 1)) then
        some (r, c)
      else none))

/-- Down word start cells in reading order. -/
def downStarts (width height : Nat) (blackCells : List (Nat × Nat)) :
    List (Nat × Nat) :=
  (List.range height).flatMap (fun r =>
    (List.range width).filterMap (fun c =>
      if isBlackIn blackCells r c then none
      else if (r = 0 ∨ isBlackIn blackCells (r - 1) c)
          ∧ (r + 1 < height ∧ ¬ isBlackIn blackCells (r + 1) c) then
        some (r, c)
      else none))

def insertSorted (n : Nat) : List Nat → List Nat
  | [] => [n]
  | m :: rest => if n ≤ m then n :: m :: rest else m :: insertSorted n rest

/-- Ascending numeric sort of the clue numbers (the comparator a - b). -/
def sortAsc (l : List Nat) : List Nat := l.foldr insertSorted []

/-- Zip of the start cells with the sorted clue numbers: the i-th start cell
in reading order receives the i-th smallest number; excess start cells receive
nothing and excess numbers are dropped. -/
def assignAcross : List (Nat × Nat) → List Nat → List (String × Nat) → List (String × Nat)
  | [], _, m => m
  | _, [], m => m
  | (r, c) :: starts, n :: nums, m =>
    assignAcross starts nums (setKey m (posKey r c) n)

/-- Same zip for the down direction, writing only cells with no number yet. -/
def assignDown : List (Nat × Nat) → List Nat → List (String × Nat) → List (String × Nat)
  | [], _, m => m
  | _, [], m => m
  | (r, c) :: starts, n :: nums, m =>
    let m := if getKey m (posKey r c) = none then setKey m (posKey r c) n else m
    assignDown starts nums m

def deriveCluePositions (gridSize : Nat × Nat) (blackCells : List (Nat × Nat))
    (acrossClues downClues : List (String × String)) : List (String × Nat) :=
  let width := gridSize.1
  let height := gridSize.2
  if width = 0 ∨ height = 0 then []
  else
    let aStarts := acrossStarts width height blackCells
    let dStarts := downStarts width height blackCells
    let acrossNums := sortAsc (acrossClues.map (fun p => parseNatC p.1.data))
    let downNums := sortAsc (downClues.map (fun p => parseNatC p.1.data))
    assignDown dStarts downNums (assignAcross aStarts acrossNums [])

/-! ## Clue text parser (parseCluesFromText) -/

inductive ClueDir where
  | across
  | down
deriving DecidableEq

/-- Per-chunk line-scan state: the two accumulated dictionaries, the current
direction, and the last registered clue reference. -/
structure ClueState where
  acrossClues : List (String × String)
  downClues : List (String × String)
  currentDirection : Option ClueDir
  lastClueNum : Option String
  lastClueDirection : Option ClueDir
deriving DecidableEq

/-- The multi-line continuation: the trimmed line is space-joined onto the
referenced clue.  A missing key would read back as the string undefined in
JS; the reference is always present when this runs, but the model keeps the
JS reading. -/
def appendToClue (m : List (String × String)) (k : String) (t : List Char) :
    List (String × String) :=
  let old := (getKey m k).getD "undefined"
  setKey m k (old ++ " " ++ String.mk t)

/-- The start-anchored digit test of the direction rules. -/
def headIsDigit : List Char → Bool
  | c :: _ => isDigitC c
  | [] => false

/-- The startsWith test discarding raw tag lines. -/
def headIsTag : List Char → Bool
  | c :: _ => c = '<'
  | [] => false

/-- Body of the line loop. -/
def processClueLine (st : ClueState) (line : List Char) : ClueState :=
  let trimmed := trimC line
  if hasWordCI ('a' :: 'c' :: 'r' :: 'o' :: 's' :: 's' :: []) trimmed
      ∧ ¬ headIsDigit trimmed then
    { st with currentDirection := some ClueDir.across }
  else if hasWordCI ('d' :: 'o' :: 'w' :: 'n' :: []) trimmed
      ∧ ¬ headIsDigit trimmed then
    { st with currentDirection := some ClueDir.down }
  else if headIsTag trimmed ∨ trimmed = [] then
    st
  else
    match matchClueLine trimmed with
    | some (num, text) =>
      match st.currentDirection with
      | some ClueDir.across =>
        { st with acrossClues := setKey st.acrossClues (String.mk num) (String.mk text)
                  lastClueNum := some (String.mk num)
                  lastClueDirection := some ClueDir.across }
      | some ClueDir.down =>
        { st with downClues := setKey st.downClues (String.mk num) (String.mk text)
                  lastClueNum := some (String.mk num)
                  lastClueDirection := some ClueDir.down }
      | none => st
    | none =>
      match st.lastClueNum, st.lastClueDirection with
      | some k, some ClueDir.across =>
        { st with acrossClues := appendToClue st.acrossClues k trimmed }
      | some k, some ClueDir.down =>
        { st with downClues := appendToClue st.downClues k trimmed }
      | _, _ => st

/-- One text chunk: its markdown split on newlines, blank lines dropped, the
direction and last-clue state starting fresh while the dictionaries carry
over. -/
def processClueChunk (acc : List (String × String) × List (String × String))
    (chunk : Chunk) : List (String × String) × List (String × String) :=
  let lines := (splitOnC '\n' chunk.markdown.data).filter (fun l => trimC l ≠ [])
  let stF := lines.foldl processClueLine ⟨acc.1, acc.2, none, none, none⟩
  (stF.acrossClues, stF.downClues)

def parseCluesFromText (textChunks : List Chunk) : ClueSet :=
  let p := textChunks.foldl processClueChunk ([], [])
  { acrossClues := p.1, downClues := p.2 }

/-! ## Classifier and assembler (transformLandingAIResponse) -/

def transformLandingAIResponse (data : RawParseResponse) :
    Except String TransformedResponse :=
  let tableChunk := data.chunks.find? (fun c => c.type == "table")
  let figureChunk := data.chunks.find? (fun c => c.type == "figure")
  let textChunks := data.chunks.filter (fun c => c.type == "text")
  match tableChunk, figureChunk with
  | none, none => Except.error "No crossword grid found in image"
  | _, _ =>
    let gridData : GridData :=
      match tableChunk with
      | some t => parseTableMarkdown t.markdown data.grounding
      | none =>
        match figureChunk with
        | some f => parseFigureDescription f.markdown
        | none =>
          { gridSize := (0, 0), blackCells := [], clueNumbers := [], preFilledLetters := [] }
    let cluesData := parseCluesFromText textChunks
    let clueNumbers :=
      if gridData.clueNumbers = [] then
        deriveCluePositions gridData.gridSize gridData.blackCells
          cluesData.acrossClues cluesData.downClues
      else gridData.clueNumbers
    Except.ok
      { gridSize := gridData.gridSize
        blackCells := gridData.blackCells
        clueNumbers := clueNumbers
        preFilledLetters := gridData.preFilledLetters
        acrossClues := cluesData.acrossClues
        downClues := cluesData.downClues }

/-! ## The dev-middleware copy of the pipeline (vite.config.ts)

The Vite dev middleware carries its own copy of the transform and its helper
parsers.  The copy is embedded separately below, translated from
vite.config.ts; its diagnostic logging has no observable effect and is not
modelled.  The regex literals of both copies are identical, so the embedded
scanners above serve both. -/

namespace dev

/-- Body of the cell loop of the dev copy's parseTableMarkdown. -/
def processTableCell (grounding : List (String × GroundingEntry)) (rowIndex : Nat)
    (colIndex : Nat) (cell : List Char) (acc : TableAcc) : TableAcc :=
  match extractId cell with
  | none => acc
  | some cid =>
    let cellContent := trimC (stripTags cell)
    match (getKey grounding (String.mk cid)).bind (fun e => e.position) with
    | some (r, c) =>
      let acc :=
        if containsSub ('d' :: 'a' :: 'r' :: 'k' :: []) cellContent
            || containsSub ('b' :: 'l' :: 'a' :: 'c' :: 'k' :: []) cellContent then
          { acc with blackCells := acc.blackCells ++ [(r, c)] }
        else acc
      let acc :=
        match leadingDigits cellContent with
        | some ds =>
          if ¬ containsSub ('s' :: 'q' :: 'u' :: 'a' :: 'r' :: 'e' :: []) cellContent then
            { acc with clueNumbers := setKey acc.clueNumbers (posKey r c) (parseNatC ds) }
          else acc
        | none => acc
      let acc :=
        match isolatedUpper cellContent with
        | some L =>
          if ¬ containsSub ('s' :: 'q' :: 'u' :: 'a' :: 'r' :: 'e' :: []) cellContent then
            { acc with preFilledLetters := setKey acc.preFilledLetters (posKey r c) (String.mk [L]) }
          else acc
        | none => acc
      acc
    | none =>
      let acc :=
        if containsSub ('d' :: 'a' :: 'r' :: 'k' :: []) cellContent
            || containsSub ('b' :: 'l' :: 'a' :: 'c' :: 'k' :: []) cellContent then
          { acc with blackCells := acc.blackCells ++ [(rowIndex, colIndex)] }
        else acc
      match leadingDigits cellContent with
      | some ds =>
        if ¬ containsSub ('s' :: 'q' :: 'u' :: 'a' :: 'r' :: 'e' :: []) cellContent then
          { acc with clueNumbers := setKey acc.clueNumbers (posKey rowIndex colIndex) (parseNatC ds) }
        else acc
      | none => acc

def processCellsFrom (grounding : List (String × GroundingEntry)) (rowIndex : Nat) :
    List (List Char) → Nat → TableAcc → TableAcc
  | [], _, acc => acc
  | cell :: rest, colIndex, acc =>
    processCellsFrom grounding rowIndex rest (colIndex + 1)
      (processTableCell grounding rowIndex colIndex cell acc)

def processTableRow (grounding : List (String × GroundingEntry)) (rowIndex : Nat)
    (row : List Char) (acc : TableAcc) : TableAcc :=
  let cells := matchAllTd row
  let acc := if acc.width = 0 then { acc with width := cells.length } else acc
  processCellsFrom grounding rowIndex cells 0 acc

def processRowsFrom (grounding : List (String × GroundingEntry)) :
    List (List Char) → Nat → TableAcc → TableAcc
  | [], _, acc => acc
  | row :: rest, rowIndex, acc =>
    processRowsFrom grounding rest (rowIndex + 1)
      (processTableRow grounding rowIndex row acc)

def parseTableMarkdown (markdown : String) (grounding : List (String × GroundingEntry)) :
    GridData :=
  let rows := matchAllTr markdown.data
  let acc := processRowsFrom grounding rows 0 ⟨0, [], [], []⟩
  { gridSize := (acc.width, rows.length)
    blackCells := acc.blackCells
    clueNumbers := acc.clueNumbers
    preFilledLetters := acc.preFilledLetters }

def figureParsedRows (description : List Char) : List (List (List Char)) :=
  (scanRows description).map (fun cs => (splitOnC ',' cs).map trimC)

def rowHasNum (row : List (List Char)) : Bool :=
  row.any (fun c => (pureNumDigits c).isSome)

def countEvenTrue : List Bool → Nat → Nat
  | [], _ => 0
  | b :: rest, i => (if i % 2 = 0 ∧ b then 1 else 0) + countEvenTrue rest (i + 1)

def countOddTrue : List Bool → Nat → Nat
  | [], _ => 0
  | b :: rest, i => (if i % 2 = 1 ∧ b then 1 else 0) + countOddTrue rest (i + 1)

def filterEvenIdx {α : Type} : List α → Nat → List α
  | [], _ => []
  | x :: rest, i =>
    if i % 2 = 0 then x :: filterEvenIdx rest (i + 1) else filterEvenIdx rest (i + 1)

/-- The dev copy's row-doubling predicate (same float comparison, embedded the
same way as the primary copy's). -/
def isDoubledRows (parsedRows : List (List (List Char))) (cols : Nat) : Bool :=
  let rowHasNumber := parsedRows.map rowHasNum
  let evenWithNums := countEvenTrue rowHasNumber 0
  let oddWithNums := countOddTrue rowHasNumber 0
  (5 * parsedRows.length ≥ 9 * cols) ∧ evenWithNums > 0 ∧ oddWithNums = 0

def figCell (rowIdx colIdx : Nat) (cell : List Char)
    (st : List (Nat × Nat) × List (String × Nat)) :
    List (Nat × Nat) × List (String × Nat) :=
  let st :=
    if containsSub ('b' :: 'l' :: 'a' :: 'c' :: 'k' :: []) (lowerList cell) then
      (st.1 ++ [(rowIdx, colIdx)], st.2)
    else st
  match pureNumDigits cell with
  | some ds => (st.1, setKey st.2 (posKey rowIdx colIdx) (parseNatC ds))
  | none => st

def figCellsFrom (rowIdx : Nat) :
    List (List Char) → Nat → List (Nat × Nat) × List (String × Nat) →
    List (Nat × Nat) × List (String × Nat)
  | [], _, st => st
  | cell :: rest, colIdx, st =>
    figCellsFrom rowIdx rest (colIdx + 1) (figCell rowIdx colIdx cell st)

def figRowsFrom :
    List (List (List Char)) → Nat → List (Nat × Nat) × List (String × Nat) →
    List (Nat × Nat) × List (String × Nat)
  | [], _, st => st
  | row :: rest, rowIdx, st =>
    figRowsFrom rest (rowIdx + 1) (figCellsFrom rowIdx row 0 st)

def parseFigureDescription (markdown : String) : GridData :=
  let md := markdown.data
  let description := (extractWrapped md).getD md
  let parsedRows := figureParsedRows description
  match parsedRows with
  | [] =>
    match scanSize description with
    | some (a, b) =>
      { gridSize := (a, b), blackCells := [], clueNumbers := [], preFilledLetters := [] }
    | none =>
      { gridSize := (0, 0), blackCells := [], clueNumbers := [], preFilledLetters := [] }
  | r0 :: _ =>
    let cols := r0.length
    let effectiveRows :=
      if isDoubledRows parsedRows cols then filterEvenIdx parsedRows 0 else parsedRows
    let st := figRowsFrom effectiveRows 0 ([], [])
    { gridSize := ((effectiveRows.headD []).length, effectiveRows.length)
      blackCells := st.1
      clueNumbers := st.2
      preFilledLetters := [] }

def isBlackIn (blackCells : List (Nat × Nat)) (r c : Nat) : Bool :=
  blackCells.any (fun p => p.1 = r ∧ p.2 = c)

def acrossStarts (width height : Nat) (blackCells : List (Nat × Nat)) :
    List (Nat × Nat) :=
  (List.range height).flatMap (fun r =>
    (List.range width).filterMap (fun c =>
      if isBlackIn blackCells r c then none
      else if (c = 0 ∨ isBlackIn blackCells r (c - 1))
          ∧ (c + 1 < width ∧ ¬ isBlackIn blackCells r (c + 1)) then
        some (r, c)
      else none))

def downStarts (width height : Nat) (blackCells : List (Nat × Nat)) :
    List (Nat × Nat) :=
  (List.range height).flatMap (fun r =>
    (List.range width).filterMap (fun c =>
      if isBlackIn blackCells r c then none
      else if (r = 0 ∨ isBlackIn blackCells (r - 1) c)
          ∧ (r + 1 < height ∧ ¬ isBlackIn blackCells (r + 1) c) then
        some (r, c)
      else none))

def assignAcross : List (Nat × Nat) → List Nat → List (String × Nat) → List (String × Nat)
  | [], _, m => m
  | _, [], m => m
  | (r, c) :: starts, n :: nums, m =>
    assignAcross starts nums (setKey m (posKey r c) n)

def assignDown : List (Nat × Nat) → List Nat → List (String × Nat) → List (String × Nat)
  | [], _, m => m
  | _, [], m => m
  | (r, c) :: starts, n :: nums, m =>
    let m := if getKey m (posKey r c) = none then setKey m (posKey r c) n else m
    assignDown starts nums m

def deriveCluePositions (gridSize : Nat × Nat) (blackCells : List (Nat × Nat))
    (acrossClues downClues : List (String × String)) : List (String × Nat) :=
  let width := gridSize.1
  let height := gridSize.2
  if width = 0 ∨ height = 0 then []
  else
    let aStarts := acrossStarts width height blackCells
    let dStarts := downStarts width height blackCells
    let acrossNums := sortAsc (acrossClues.map (fun p => parseNatC p.1.data))
    let downNums := sortAsc (downClues.map (fun p => parseNatC p.1.data))
    assignDown dStarts downNums (assignAcross aStarts acrossNums [])

def appendToClue (m : List (String × String)) (k : String) (t : List Char) :
    List (String × String) :=
  let old := (getKey m k).getD "undefined"
  setKey m k (old ++ " " ++ String.mk t)

def processClueLine (st : ClueState) (line : List Char) : ClueState :=
  let trimmed := trimC line
  if hasWordCI ('a' :: 'c' :: 'r' :: 'o' :: 's' :: 's' :: []) trimmed
      ∧ ¬ headIsDigit trimmed then
    { st with currentDirection := some ClueDir.across }
  else if hasWordCI ('d' :: 'o' :: 'w' :: 'n' :: []) trimmed
      ∧ ¬ headIsDigit trimmed then
    { st with currentDirection := some ClueDir.down }
  else if headIsTag trimmed ∨ trimmed = [] then
    st
  else
    match matchClueLine trimmed with
    | some (num, text) =>
      match st.currentDirection with
      | some ClueDir.across =>
        { st with acrossClues := setKey st.acrossClues (String.mk num) (String.mk text)
                  lastClueNum := some (String.mk num)
                  lastClueDirection := some ClueDir.across }
      | some ClueDir.down =>
        { st with downClues := setKey st.downClues (String.mk num) (String.mk text)
                  lastClueNum := some (String.mk num)
                  lastClueDirection := some ClueDir.down }
      | none => st
    | none =>
      match st.lastClueNum, st.lastClueDirection with
      | some k, some ClueDir.across =>
        { st with acrossClues := appendToClue st.acrossClues k trimmed }
      | some k, some ClueDir.down =>
        { st with downClues := appendToClue st.downClues k trimmed }
      | _, _ => st

def processClueChunk (acc : List (String × String) × List (String × String))
    (chunk : Chunk) : List (String × String) × List (String × String) :=
  let lines := (splitOnC '\n' chunk.markdown.data).filter (fun l => trimC l ≠ [])
  let stF := lines.foldl processClueLine ⟨acc.1, acc.2, none, none, none⟩
  (stF.acrossClues, stF.downClues)

def parseCluesFromText (textChunks : List Chunk) : ClueSet :=
  let p := textChunks.foldl processClueChunk ([], [])
  { acrossClues := p.1, downClues := p.2 }

def transformLandingAIResponse (data : RawParseResponse) :
    Except String TransformedResponse :=
  let tableChunk := data.chunks.find? (fun c => c.type == "table")
  let figureChunk := data.chunks.find? (fun c => c.type == "figure")
  let textChunks := data.chunks.filter (fun c => c.type == "text")
  match tableChunk, figureChunk with
  | none, none => Except.error "No crossword grid found in image"
  | _, _ =>
    let gridData : GridData :=
      match tableChunk with
      | some t => parseTableMarkdown t.markdown data.grounding
      | none =>
        match figureChunk with
        | some f => parseFigureDescription f.markdown
        | none =>
          { gridSize := (0, 0), blackCells := [], clueNumbers := [], preFilledLetters := [] }
    let cluesData := parseCluesFromText textChunks
    let clueNumbers :=
      if gridData.clueNumbers = [] then
        deriveCluePositions gridData.gridSize gridData.blackCells
          cluesData.acrossClues cluesData.downClues
      else gridData.clueNumbers
    Except.ok
      { gridSize := gridData.gridSize
        blackCells := gridData.blackCells
        clueNumbers := clueNumbers
        preFilledLetters := gridData.preFilledLetters
        acrossClues := cluesData.acrossClues
        downClues := cluesData.downClues }

end dev

/-! ## Observers used to state the theorems -/

/-- The grid extraction the transform performs, as an observer: the table
parser on the first table chunk when one exists, otherwise the figure parser
on the first figure chunk, otherwise nothing (mirrors the chunk selection and
dispatch of transformLandingAIResponse). -/
def gridExtractionOf (data : RawParseResponse) : Option GridData :=
  match data.chunks.find? (fun c => c.type == "table") with
  | some t => some (parseTableMarkdown t.markdown data.grounding)
  | none =>
    (data.chunks.find? (fun c => c.type == "figure")).map
      (fun f => parseFigureDescription f.markdown)

/-- The clue set the transform extracts, as an observer. -/
def clueSetOf (data : RawParseResponse) : ClueSet :=
  parseCluesFromText (data.chunks.filter (fun c => c.type == "text"))

/-! ## Equality of the two pipeline copies, helper by helper -/

theorem dev_processTableCell_eq : dev.processTableCell = processTableCell := rfl

theorem dev_processCellsFrom_eq (g : List (String × GroundingEntry)) (rowIndex : Nat)
    (cells : List (List Char)) (colIndex : Nat) (acc : TableAcc) :
    dev.processCellsFrom g rowIndex cells colIndex acc
      = processCellsFrom g rowIndex cells colIndex acc := by
  induction cells generalizing colIndex acc with
  | nil => rfl
  | cons c rest ih =>
    simp only [dev.processCellsFrom, processCellsFrom, dev_processTableCell_eq, ih]

theorem dev_processTableRow_eq (g : List (String × GroundingEntry)) (rowIndex : Nat)
    (row : List Char) (acc : TableAcc) :
    dev.processTableRow g rowIndex row acc = processTableRow g rowIndex row acc := by
  simp only [dev.processTableRow, processTableRow, dev_processCellsFrom_eq]

theorem dev_processRowsFrom_eq (g : List (String × GroundingEntry))
    (rows : List (List Char)) (rowIndex : Nat) (acc : TableAcc) :
    dev.processRowsFrom g rows rowIndex acc = processRowsFrom g rows rowIndex acc := by
  induction rows generalizing rowIndex acc with
  | nil => rfl
  | cons r rest ih =>
    simp only [dev.processRowsFrom, processRowsFrom, dev_processTableRow_eq, ih]

theorem dev_parseTableMarkdown_eq (md : String) (g : List (String × GroundingEntry)) :
    dev.parseTableMarkdown md g = parseTableMarkdown md g := by
  simp only [dev.parseTableMarkdown, parseTableMarkdown, dev_processRowsFrom_eq]

theorem dev_countEvenTrue_eq (l : List Bool) (i : Nat) :
    dev.countEvenTrue l i = countEvenTrue l i := by
  induction l generalizing i with
  | nil => rfl
  | cons b rest ih => simp only [dev.countEvenTrue, countEvenTrue, ih]

theorem dev_countOddTrue_eq (l : List Bool) (i : Nat) :
    dev.countOddTrue l i = countOddTrue l i := by
  induction l generalizing i with
  | nil => rfl
  | cons b rest ih => simp only [dev.countOddTrue, countOddTrue, ih]

theorem dev_filterEvenIdx_eq {α : Type} (l : List α) (i : Nat) :
    dev.filterEvenIdx l i = filterEvenIdx l i := by
  induction l generalizing i with
  | nil => rfl
  | cons x rest ih => simp only [dev.filterEvenIdx, filterEvenIdx, ih]

theorem dev_isDoubledRows_eq (rows : List (List (List Char))) (cols : Nat) :
    dev.isDoubledRows rows cols = isDoubledRows rows cols := by
  simp only [dev.isDoubledRows, isDoubledRows, dev_countEvenTrue_eq, dev_countOddTrue_eq]
  rfl

theorem dev_figCellsFrom_eq (rowIdx : Nat) (cells : List (List Char)) (colIdx : Nat)
    (st : List (Nat × Nat) × List (String × Nat)) :
    dev.figCellsFrom rowIdx cells colIdx st = figCellsFrom rowIdx cells colIdx st := by
  induction cells generalizing colIdx st with
  | nil => rfl
  | cons c rest ih => simp only [dev.figCellsFrom, figCellsFrom, ih]; rfl

theorem dev_figRowsFrom_eq (rows : List (List (List Char))) (rowIdx : Nat)
    (st : List (Nat × Nat) × List (String × Nat)) :
    dev.figRowsFrom rows rowIdx st = figRowsFrom rows rowIdx st := by
  induction rows generalizing rowIdx st with
  | nil => rfl
  | cons r rest ih => simp only [dev.figRowsFrom, figRowsFrom, dev_figCellsFrom_eq, ih]

theorem dev_figureParsedRows_eq : dev.figureParsedRows = figureParsedRows := rfl

theorem dev_parseFigureDescription_eq (md : String) :
    dev.parseFigureDescription md = parseFigureDescription md := by
  simp only [dev.parseFigureDescription, parseFigureDescription, dev_figureParsedRows_eq]
  cases figureParsedRows ((extractWrapped md.data).getD md.data) with
  | nil => rfl
  | cons r0 rest =>
    simp only [dev_isDoubledRows_eq, dev_filterEvenIdx_eq, dev_figRowsFrom_eq]

theorem dev_assignAcross_eq (starts : List (Nat × Nat)) (nums : List Nat)
    (m : List (String × Nat)) :
    dev.assignAcross starts nums m = assignAcross starts nums m := by
  induction starts generalizing nums m with
  | nil => cases nums <;> rfl
  | cons p rest ih =>
    cases nums with
    | nil => rfl
    | cons n ns => simp only [dev.assignAcross, assignAcross, ih]

theorem dev_assignDown_eq (starts : List (Nat × Nat)) (nums : List Nat)
    (m : List (String × Nat)) :
    dev.assignDown starts nums m = assignDown starts nums m := by
  induction starts generalizing nums m with
  | nil => cases nums <;> rfl
  | cons p rest ih =>
    cases nums with
    | nil => rfl
    | cons n ns => simp only [dev.assignDown, assignDown, ih]

theorem dev_deriveCluePositions_eq (gridSize : Nat × Nat) (blackCells : List (Nat × Nat))
    (acrossClues downClues : List (String × String)) :
    dev.deriveCluePositions gridSize blackCells acrossClues downClues
      = deriveCluePositions gridSize blackCells acrossClues downClues := by
  simp only [dev.deriveCluePositions, deriveCluePositions, dev_assignAcross_eq,
    dev_assignDown_eq]
  rfl

theorem dev_processClueLine_eq : dev.processClueLine = processClueLine := rfl

theorem dev_processClueChunk_eq : dev.processClueChunk = processClueChunk := by
  funext acc chunk
  simp only [dev.processClueChunk, processClueChunk, dev_processClueLine_eq]

theorem dev_parseCluesFromText_eq (textChunks : List Chunk) :
    dev.parseCluesFromText textChunks = parseCluesFromText textChunks := by
  simp only [dev.parseCluesFromText, parseCluesFromText, dev_processClueChunk_eq]

/-- C10: the serverless function's transform and the Vite dev middleware's
transform are extensionally equal: on every raw response they either both
produce the no-grid error or both return the same puzzle definition. -/
theorem serverless_and_dev_copies_agree (data : RawParseResponse) :
    transformLandingAIResponse data = dev.transformLandingAIResponse data := by
  unfold transformLandingAIResponse dev.transformLandingAIResponse
  cases h1 : data.chunks.find? (fun c => c.type == "table") with
  | none =>
    cases h2 : data.chunks.find? (fun c => c.type == "figure") with
    | none => rfl
    | some f =>
      simp only [dev_parseFigureDescription_eq, dev_deriveCluePositions_eq,
        dev_parseCluesFromText_eq]
  | some t =>
    cases h2 : data.chunks.find? (fun c => c.type == "figure") with
    | none =>
      simp only [dev_parseTableMarkdown_eq, dev_deriveCluePositions_eq,
        dev_parseCluesFromText_eq]
    | some f =>
      simp only [dev_parseTableMarkdown_eq, dev_deriveCluePositions_eq,
        dev_parseCluesFromText_eq]

/-- C7: on a 3 by 3 grid whose only black cell is the centre, the deriver's
across-start cells are exactly the left-column cells of the top and bottom
rows and its down-start cells are exactly the top-row cells of the left and
right columns, in reading order. -/
theorem starts_3x3_center_black :
    acrossStarts 3 3 [(1, 1)] = [(0, 0), (2, 0)]
      ∧ downStarts 3 3 [(1, 1)] = [(0, 0), (0, 2)] := by
  constructor <;> rfl

/-- C8: on the text chunk with lines ACROSS, 1 Capital of France, continued
text, the clue parser maps across clue 1 to the space-joined continuation. -/
theorem clue_continuation_example :
    (parseCluesFromText [⟨"text", "ACROSS\n1 Capital of France\ncontinued text"⟩]).acrossClues
      = [("1", "Capital of France continued text")] := by
  rfl

/-- C1: the transform produces the no-grid error exactly when the chunk list
contains no table chunk and no figure chunk; with such a chunk present the
error is never produced (and in the error case no puzzle definition is
returned, the result being the error alone). -/
theorem noGrid_error_iff (data : RawParseResponse) :
    transformLandingAIResponse data = Except.error "No crossword grid found in image"
      ↔ ∀ c ∈ data.chunks, c.type ≠ "table" ∧ c.type ≠ "figure" := by
  unfold transformLandingAIResponse
  cases h1 : data.chunks.find? (fun c => c.type == "table") with
  | none =>
    cases h2 : data.chunks.find? (fun c => c.type == "figure") with
    | none =>
      constructor
      · intro _ c hc
        have t1 := List.find?_eq_none.mp h1 c hc
        have t2 := List.find?_eq_none.mp h2 c hc
        simp only [beq_iff_eq] at t1 t2
        exact ⟨t1, t2⟩
      · intro _; rfl
    | some f =>
      constructor
      · intro h; exact absurd h (by simp)
      · intro hall
        exfalso
        have hf := List.find?_some h2
        have hmem := List.mem_of_find?_eq_some h2
        simp only [beq_iff_eq] at hf
        exact (hall f hmem).2 hf
  | some t =>
    have ht := List.find?_some h1
    have hmem := List.mem_of_find?_eq_some h1
    simp only [beq_iff_eq] at ht
    cases h2 : data.chunks.find? (fun c => c.type == "figure") with
    | none =>
      constructor
      · intro h; exact absurd h (by simp)
      · intro hall; exact absurd ht (hall t hmem).1
    | some f =>
      constructor
      · intro h; exact absurd h (by simp)
      · intro hall; exact absurd ht (hall t hmem).1

/-- C9: the transform is total and the missing-grid error is the only error
it can produce: every input yields either that error or a puzzle definition;
the helper parsers, being plain functions of this embedding, terminate on
every string input. -/
theorem transform_total_unique_error (data : RawParseResponse) :
    transformLandingAIResponse data = Except.error "No crossword grid found in image"
      ∨ ∃ res, transformLandingAIResponse data = Except.ok res := by
  unfold transformLandingAIResponse
  cases h1 : data.chunks.find? (fun c => c.type == "table") with
  | none =>
    cases h2 : data.chunks.find? (fun c => c.type == "figure") with
    | none => exact Or.inl rfl
    | some f => exact Or.inr ⟨_, rfl⟩
  | some t =>
    cases h2 : data.chunks.find? (fun c => c.type == "figure") with
    | none => exact Or.inr ⟨_, rfl⟩
    | some f => exact Or.inr ⟨_, rfl⟩

/-- C2: whenever a grid chunk exists, the transform returns a puzzle whose
clue numbers are the grid parser's when that map is non-empty, and exactly
the deriver's output on the parsed dimensions, black cells and clue sets when
the grid parser produced none. -/
theorem clueNumbers_derivation_rule (data : RawParseResponse) (g : GridData)
    (hg : gridExtractionOf data = some g) :
    transformLandingAIResponse data = Except.ok
      { gridSize := g.gridSize
        blackCells := g.blackCells
        clueNumbers :=
          if g.clueNumbers = [] then
            deriveCluePositions g.gridSize g.blackCells
              (clueSetOf data).acrossClues (clueSetOf data).downClues
          else g.clueNumbers
        preFilledLetters := g.preFilledLetters
        acrossClues := (clueSetOf data).acrossClues
        downClues := (clueSetOf data).downClues } := by
  unfold transformLandingAIResponse
  unfold gridExtractionOf at hg
  cases h1 : data.chunks.find? (fun c => c.type == "table") with
  | none =>
    rw [h1] at hg
    cases h2 : data.chunks.find? (fun c => c.type == "figure") with
    | none => rw [h2] at hg; cases hg
    | some f =>
      rw [h2] at hg
      simp only [Option.map_some] at hg
      cases hg
      rfl
  | some t =>
    rw [h1] at hg
    simp only [Option.some.injEq] at hg
    cases hg
    cases h2 : data.chunks.find? (fun c => c.type == "figure") with
    | none => rfl
    | some f => rfl

/-! ## Dictionary lemmas -/

theorem getKey_setKey {α : Type} (m : List (String × α)) (k : String) (v : α) :
    getKey (setKey m k v) k = some v := by
  induction m with
  | nil => simp [setKey, getKey]
  | cons p rest ih =>
    by_cases h : p.1 = k
    · simp [setKey, getKey, h]
    · cases p; simp_all [setKey, getKey]

theorem getKey_mem {α : Type} (m : List (String × α)) (k : String) (v : α)
    (h : getKey m k = some v) : (k, v) ∈ m := by
  induction m with
  | nil => simp [getKey] at h
  | cons p rest ih =>
    by_cases hk : p.1 = k
    · cases p
      simp [getKey, hk] at h
      simp_all
    · cases p
      simp [getKey, hk] at h
      exact List.mem_cons_of_mem _ (ih h)

/-! ## Width of the table accumulator through the scan -/

theorem processTableCell_width (grounding : List (String × GroundingEntry))
    (rowIndex colIndex : Nat) (cell : List Char) (acc : TableAcc) :
    (processTableCell grounding rowIndex colIndex cell acc).width = acc.width := by
  unfold processTableCell
  repeat' ((try dsimp only); split)
  all_goals rfl

theorem processCellsFrom_width (grounding : List (String × GroundingEntry))
    (rowIndex : Nat) (cells : List (List Char)) (colIndex : Nat) (acc : TableAcc) :
    (processCellsFrom grounding rowIndex cells colIndex acc).width = acc.width := by
  induction cells generalizing colIndex acc with
  | nil => rfl
  | cons c rest ih =>
    simp only [processCellsFrom, ih, processTableCell_width]

theorem processTableRow_width (grounding : List (String × GroundingEntry))
    (rowIndex : Nat) (row : List Char) (acc : TableAcc) :
    (processTableRow grounding rowIndex row acc).width
      = if acc.width = 0 then (matchAllTd row).length else acc.width := by
  unfold processTableRow
  split <;> simp [processCellsFrom_width]

theorem processRowsFrom_width_stable (grounding : List (String × GroundingEntry))
    (rows : List (List Char)) (rowIndex : Nat) (acc : TableAcc) (h : acc.width ≠ 0) :
    (processRowsFrom grounding rows rowIndex acc).width = acc.width := by
  induction rows generalizing rowIndex acc with
  | nil => rfl
  | cons r rest ih =>
    simp only [processRowsFrom]
    rw [ih _ _ (by rw [processTableRow_width]; simp [h]), processTableRow_width]
    simp [h]

/-- C6: on a table markup whose row scan yields N rows, each yielding M cells
with M at least 1, the parser's gridSize is exactly (M, N), whatever the cell
contents and the grounding. -/
theorem table_gridSize_MN (md : String) (grounding : List (String × GroundingEntry))
    (M : Nat) (r0 : List Char) (rest : List (List Char))
    (hrows : matchAllTr md.data = r0 :: rest)
    (hM : ∀ r ∈ r0 :: rest, (matchAllTd r).length = M)
    (hM1 : 1 ≤ M) :
    (parseTableMarkdown md grounding).gridSize = (M, (r0 :: rest).length) := by
  unfold parseTableMarkdown
  rw [hrows]
  have h0 : (processTableRow grounding 0 r0 ⟨0, [], [], []⟩).width = M := by
    rw [processTableRow_width]
    simpa using hM r0 (by simp)
  dsimp only
  simp only [processRowsFrom]
  rw [processRowsFrom_width_stable grounding rest 1 _ (by rw [h0]; omega), h0]

/-- C5 amended: when the cell's position comes from the grounding map, a cell
whose stripped trimmed text carries an isolated uppercase letter and no
square substring records that letter at the grounded position.  (The claim's
fallback half fails: the no-grounding branch records no letter; see the
counterexample.) -/
theorem preFilled_grounded_letter (grounding : List (String × GroundingEntry))
    (rowIndex colIndex : Nat) (cell : List Char) (acc : TableAcc)
    (cid : List Char) (e : GroundingEntry) (r c : Nat) (L : Char)
    (h1 : extractId cell = some cid)
    (h2 : getKey grounding (String.mk cid) = some e)
    (h3 : e.position = some (r, c))
    (h4 : isolatedUpper (trimC (stripTags cell)) = some L)
    (h5 : containsSub ('s' :: 'q' :: 'u' :: 'a' :: 'r' :: 'e' :: [])
            (trimC (stripTags cell)) = false) :
    getKey (processTableCell grounding rowIndex colIndex cell acc).preFilledLetters
        (posKey r c) = some (String.mk [L]) := by
  unfold processTableCell
  rw [h1]
  dsimp only
  rw [h2]
  dsimp only [Option.bind]
  rw [h3]
  dsimp only
  rw [h4]
  simp only [h5]
  repeat' ((try dsimp only); split)
  all_goals simp_all [getKey_setKey]

/-! ## Black-cell bounds through the table scan -/

theorem processTableCell_blackCells_bound (grounding : List (String × GroundingEntry))
    (H W rowIndex colIndex : Nat) (cell : List Char) (acc : TableAcc)
    (hg : ∀ p ∈ grounding, ∀ r c, p.2.position = some (r, c) → r < H ∧ c < W)
    (hrow : rowIndex < H) (hcol : colIndex < W)
    (hacc : ∀ p ∈ acc.blackCells, p.1 < H ∧ p.2 < W) :
    ∀ p ∈ (processTableCell grounding rowIndex colIndex cell acc).blackCells,
      p.1 < H ∧ p.2 < W := by
  unfold processTableCell
  cases h1 : extractId cell with
  | none => exact hacc
  | some cid =>
    dsimp only
    cases h2 : getKey grounding (String.mk cid) with
    | none =>
      dsimp only [Option.bind]
      repeat' ((try dsimp only); split)
      all_goals intro p hp
      all_goals first
        | exact hacc p hp
        | (simp only [List.mem_append, List.mem_singleton] at hp
           rcases hp with hp | hp
           · exact hacc p hp
           · subst hp; exact ⟨hrow, hcol⟩)
    | some e =>
      dsimp only [Option.bind]
      cases h3 : e.position with
      | none =>
        repeat' ((try dsimp only); split)
        all_goals intro p hp
        all_goals first
          | exact hacc p hp
          | (simp only [List.mem_append, List.mem_singleton] at hp
             rcases hp with hp | hp
             · exact hacc p hp
             · subst hp; exact ⟨hrow, hcol⟩)
      | some rc =>
        obtain ⟨r, c⟩ := rc
        have hbound : r < H ∧ c < W := hg _ (getKey_mem _ _ _ h2) r c h3
        repeat' ((try dsimp only); split)
        all_goals intro p hp
        all_goals first
          | exact hacc p hp
          | (simp only [List.mem_append, List.mem_singleton] at hp
             rcases hp with hp | hp
             · exact hacc p hp
             · subst hp; exact hbound)

theorem processCellsFrom_blackCells_bound (grounding : List (String × GroundingEntry))
    (H W rowIndex : Nat) (cells : List (List Char)) (colIndex : Nat) (acc : TableAcc)
    (hg : ∀ p ∈ grounding, ∀ r c, p.2.position = some (r, c) → r < H ∧ c < W)
    (hrow : rowIndex < H) (hcells : colIndex + cells.length ≤ W)
    (hacc : ∀ p ∈ acc.blackCells, p.1 < H ∧ p.2 < W) :
    ∀ p ∈ (processCellsFrom grounding rowIndex cells colIndex acc).blackCells,
      p.1 < H ∧ p.2 < W := by
  induction cells generalizing colIndex acc with
  | nil => exact fun p hp => hacc p hp
  | cons cell rest ih =>
    simp only [processCellsFrom]
    exact ih (colIndex + 1)
      (processTableCell grounding rowIndex colIndex cell acc)
      (by simpa [Nat.add_comm, Nat.add_left_comm] using hcells)
      (processTableCell_blackCells_bound grounding H W rowIndex colIndex cell acc
        hg hrow (by simp at hcells; omega) hacc)

theorem processTableRow_blackCells_bound (grounding : List (String × GroundingEntry))
    (H W rowIndex : Nat) (row : List Char) (acc : TableAcc)
    (hg : ∀ p ∈ grounding, ∀ r c, p.2.position = some (r, c) → r < H ∧ c < W)
    (hrow : rowIndex < H) (hlen : (matchAllTd row).length ≤ W)
    (hacc : ∀ p ∈ acc.blackCells, p.1 < H ∧ p.2 < W) :
    ∀ p ∈ (processTableRow grounding rowIndex row acc).blackCells,
      p.1 < H ∧ p.2 < W := by
  unfold processTableRow
  dsimp only
  split
  · exact processCellsFrom_blackCells_bound grounding H W rowIndex _ 0 _
      hg hrow (by simpa using hlen) (by simpa using hacc)
  · exact processCellsFrom_blackCells_bound grounding H W rowIndex _ 0 _
      hg hrow (by simpa using hlen) hacc

theorem processRowsFrom_blackCells_bound (grounding : List (String × GroundingEntry))
    (H W : Nat) (rows : List (List Char)) (rowIndex : Nat) (acc : TableAcc)
    (hg : ∀ p ∈ grounding, ∀ r c, p.2.position = some (r, c) → r < H ∧ c < W)
    (hrows : rowIndex + rows.length ≤ H)
    (hlen : ∀ r ∈ rows, (matchAllTd r).length ≤ W)
    (hacc : ∀ p ∈ acc.blackCells, p.1 < H ∧ p.2 < W) :
    ∀ p ∈ (processRowsFrom grounding rows rowIndex acc).blackCells,
      p.1 < H ∧ p.2 < W := by
  induction rows generalizing rowIndex acc with
  | nil => exact fun p hp => hacc p hp
  | cons row rest ih =>
    simp only [processRowsFrom]
    exact ih (rowIndex + 1) _
      (by simp at hrows ⊢; omega)
      (fun r hr => hlen r (List.mem_cons_of_mem _ hr))
      (processTableRow_blackCells_bound grounding H W rowIndex row acc hg
        (by simp at hrows; omega) (hlen row (by simp)) hacc)

/-! ## Black-cell bounds through the figure scan -/

theorem figCell_blackCells_bound (H W rowIdx colIdx : Nat) (cell : List Char)
    (st : List (Nat × Nat) × List (String × Nat))
    (hr : rowIdx < H) (hc : colIdx < W)
    (hst : ∀ p ∈ st.1, p.1 < H ∧ p.2 < W) :
    ∀ p ∈ (figCell rowIdx colIdx cell st).1, p.1 < H ∧ p.2 < W := by
  unfold figCell
  repeat' ((try dsimp only); split)
  all_goals intro p hp
  all_goals first
    | exact hst p hp
    | (simp only [List.mem_append, List.mem_singleton] at hp
       rcases hp with hp | hp
       · exact hst p hp
       · subst hp; exact ⟨hr, hc⟩)

theorem figCellsFrom_blackCells_bound (H W rowIdx : Nat) (cells : List (List Char))
    (colIdx : Nat) (st : List (Nat × Nat) × List (String × Nat))
    (hr : rowIdx < H) (hcells : colIdx + cells.length ≤ W)
    (hst : ∀ p ∈ st.1, p.1 < H ∧ p.2 < W) :
    ∀ p ∈ (figCellsFrom rowIdx cells colIdx st).1, p.1 < H ∧ p.2 < W := by
  induction cells generalizing colIdx st with
  | nil => exact fun p hp => hst p hp
  | cons cell rest ih =>
    simp only [figCellsFrom]
    exact ih (colIdx + 1) _
      (by simp at hcells ⊢; omega)
      (figCell_blackCells_bound H W rowIdx colIdx cell st hr (by simp at hcells; omega) hst)

theorem figRowsFrom_blackCells_bound (H W : Nat) (rows : List (List (List Char)))
    (rowIdx : Nat) (st : List (Nat × Nat) × List (String × Nat))
    (hrows : rowIdx + rows.length ≤ H)
    (hlen : ∀ r ∈ rows, r.length ≤ W)
    (hst : ∀ p ∈ st.1, p.1 < H ∧ p.2 < W) :
    ∀ p ∈ (figRowsFrom rows rowIdx st).1, p.1 < H ∧ p.2 < W := by
  induction rows generalizing rowIdx st with
  | nil => exact fun p hp => hst p hp
  | cons row rest ih =>
    simp only [figRowsFrom]
    exact ih (rowIdx + 1) _
      (by simp at hrows ⊢; omega)
      (fun r hr => hlen r (List.mem_cons_of_mem _ hr))
      (figCellsFrom_blackCells_bound H W rowIdx row 0 st
        (by simp at hrows; omega) (by simpa using hlen row (by simp)) hst)

theorem filterEvenIdx_mem {α : Type} (l : List α) (i : Nat) (x : α)
    (h : x ∈ filterEvenIdx l i) : x ∈ l := by
  induction l generalizing i with
  | nil => simp [filterEvenIdx] at h
  | cons y rest ih =>
    by_cases hi : i % 2 = 0
    · simp only [filterEvenIdx, hi, if_pos] at h
      rcases List.mem_cons.mp h with h | h
      · simp [h]
      · exact List.mem_cons_of_mem _ (ih (i + 1) h)
    · simp only [filterEvenIdx, hi, if_neg, if_false] at h
      exact List.mem_cons_of_mem _ (ih (i + 1) h)

/-- C4 amended: black cells lie within the reported dimensions provided that
no row yields more cells than the computed width (table and figure paths) and
that every grounding position used lies within the computed dimensions.  (The
unconditional claim fails; see the counterexample.) -/
theorem blackCells_within_bounds_amended :
    (∀ (md : String) (grounding : List (String × GroundingEntry)),
      (∀ r ∈ matchAllTr md.data,
          (matchAllTd r).length ≤ (parseTableMarkdown md grounding).gridSize.1) →
      (∀ p ∈ grounding, ∀ r c, p.2.position = some (r, c) →
          r < (parseTableMarkdown md grounding).gridSize.2
            ∧ c < (parseTableMarkdown md grounding).gridSize.1) →
      ∀ p ∈ (parseTableMarkdown md grounding).blackCells,
        p.1 < (parseTableMarkdown md grounding).gridSize.2
          ∧ p.2 < (parseTableMarkdown md grounding).gridSize.1)
    ∧ (∀ md : String,
      (∀ r ∈ figureParsedRows ((extractWrapped md.data).getD md.data),
          r.length ≤ (parseFigureDescription md).gridSize.1) →
      ∀ p ∈ (parseFigureDescription md).blackCells,
        p.1 < (parseFigureDescription md).gridSize.2
          ∧ p.2 < (parseFigureDescription md).gridSize.1) := by
  constructor
  · intro md grounding h1 h2
    unfold parseTableMarkdown at *
    dsimp only at *
    exact processRowsFrom_blackCells_bound grounding
      (matchAllTr md.data).length _ (matchAllTr md.data) 0 ⟨0, [], [], []⟩
      h2 (by simp) h1 (by simp)
  · intro md h1
    cases hrows : figureParsedRows ((extractWrapped md.data).getD md.data) with
    | nil =>
      have hbc : (parseFigureDescription md).blackCells = [] := by
        unfold parseFigureDescription
        dsimp only
        rw [hrows]
        dsimp only
        split <;> rfl
      rw [hbc]
      simp
    | cons r0 rest =>
      have hbc : (parseFigureDescription md).blackCells
          = (figRowsFrom
              (if isDoubledRows (r0 :: rest) r0.length then filterEvenIdx (r0 :: rest) 0
               else r0 :: rest) 0 ([], [])).1 := by
        unfold parseFigureDescription
        dsimp only
        rw [hrows]
      have hgs : (parseFigureDescription md).gridSize
          = (((if isDoubledRows (r0 :: rest) r0.length then filterEvenIdx (r0 :: rest) 0
               else r0 :: rest).headD []).length,
             (if isDoubledRows (r0 :: rest) r0.length then filterEvenIdx (r0 :: rest) 0
              else r0 :: rest).length) := by
        unfold parseFigureDescription
        dsimp only
        rw [hrows]
      rw [hrows, hgs] at h1
      rw [hbc, hgs]
      dsimp only
      apply figRowsFrom_blackCells_bound
      · simp
      · intro r hr
        apply h1
        by_cases hd : isDoubledRows (r0 :: rest) r0.length = true
        · rw [if_pos hd] at hr
          exact filterEvenIdx_mem _ _ _ hr
        · rw [if_neg hd] at hr
          exact hr
      · simp

/-! ## Counting lemmas for the row-doubling detection -/

theorem countEvenTrue_pos_iff (l : List Bool) (i : Nat) :
    0 < countEvenTrue l i
      ↔ ∃ j, j < l.length ∧ (i + j) % 2 = 0 ∧ l.getD j false = true := by
  induction l generalizing i with
  | nil => simp [countEvenTrue]
  | cons b t ih =>
    simp only [countEvenTrue, List.length_cons]
    constructor
    · by_cases hc : i % 2 = 0 ∧ b = true
      · exact fun _ => ⟨0, by omega, by simpa using hc.1, by simpa using hc.2⟩
      · rw [if_neg hc, Nat.zero_add]
        intro h
        obtain ⟨j, hj, hm, hg⟩ := (ih (i + 1)).mp h
        exact ⟨j + 1, by omega, by omega, by simpa using hg⟩
    · rintro ⟨j, hj, hm, hg⟩
      cases j with
      | zero =>
        rw [if_pos ⟨by simpa using hm, by simpa using hg⟩]
        omega
      | succ k =>
        have hk : 0 < countEvenTrue t (i + 1) :=
          (ih (i + 1)).mpr ⟨k, by omega, by omega, by simpa using hg⟩
        exact Nat.lt_of_lt_of_le hk (Nat.le_add_left _ _)

theorem countOddTrue_eq_zero_iff (l : List Bool) (i : Nat) :
    countOddTrue l i = 0
      ↔ ∀ j, j < l.length → (i + j) % 2 = 1 → l.getD j false = false := by
  induction l generalizing i with
  | nil => simp [countOddTrue]
  | cons b t ih =>
    simp only [countOddTrue, List.length_cons]
    constructor
    · intro h j hj hm
      have h1 : (if i % 2 = 1 ∧ b = true then 1 else 0) = 0 := by omega
      have h2 : countOddTrue t (i + 1) = 0 := by omega
      cases j with
      | zero =>
        have hb : ¬ (i % 2 = 1 ∧ b = true) := by
          intro hc; rw [if_pos hc] at h1; omega
        have him : i % 2 = 1 := by simpa using hm
        have : b = false := by
          cases hb2 : b
          · rfl
          · exact absurd ⟨him, hb2⟩ hb
        simpa using this
      | succ k =>
        have := (ih (i + 1)).mp h2 k (by omega) (by omega)
        simpa using this
    · intro hall
      have h1 : (if i % 2 = 1 ∧ b = true then 1 else 0) = 0 := by
        by_cases hc : i % 2 = 1 ∧ b = true
        · exfalso
          have := hall 0 (by omega) (by simpa using hc.1)
          rw [hc.2] at this
          simp at this
        · simp [hc]
      have h2 : countOddTrue t (i + 1) = 0 :=
        (ih (i + 1)).mpr (fun j hj hm => by
          have := hall (j + 1) (by omega) (by omega)
          simpa using this)
      omega

theorem getD_map_rowHasNum (l : List (List (List Char))) (j : Nat) (hj : j < l.length) :
    (l.map rowHasNum).getD j false = rowHasNum (l.getD j []) := by
  induction l generalizing j with
  | nil => simp at hj
  | cons x t ih =>
    cases j with
    | zero => rfl
    | succ k => simpa using ih k (by simpa using hj)

theorem filterEvenIdx_length {α : Type} (l : List α) (i : Nat) :
    (filterEvenIdx l i).length
      = if i % 2 = 0 then (l.length + 1) / 2 else l.length / 2 := by
  induction l generalizing i with
  | nil => simp [filterEvenIdx]
  | cons x t ih =>
    by_cases h : i % 2 = 0
    · simp only [filterEvenIdx, if_pos h, List.length_cons, ih (i + 1)]
      rw [if_neg (by omega : ¬ (i + 1) % 2 = 0)]
      omega
    · simp only [filterEvenIdx, if_neg h, List.length_cons, ih (i + 1)]
      rw [if_pos (by omega : (i + 1) % 2 = 0)]

/-- The row-doubling detector, characterised the way the claim states it. -/
theorem isDoubledRows_iff (r0 : List (List Char)) (rest : List (List (List Char)))
    (cols : Nat) :
    isDoubledRows (r0 :: rest) cols = true
      ↔ 5 * (r0 :: rest).length ≥ 9 * cols
        ∧ (∃ j, j < (r0 :: rest).length ∧ j % 2 = 0
            ∧ rowHasNum ((r0 :: rest).getD j []) = true)
        ∧ (∀ j, j < (r0 :: rest).length → j % 2 = 1
            → rowHasNum ((r0 :: rest).getD j []) = false) := by
  unfold isDoubledRows
  simp only [decide_eq_true_eq]
  constructor
  · rintro ⟨hge, hpos, hzero⟩
    refine ⟨hge, ?_, ?_⟩
    · obtain ⟨j, hj, hm, hg⟩ := (countEvenTrue_pos_iff _ 0).mp hpos
      rw [List.length_map] at hj
      rw [getD_map_rowHasNum _ _ hj] at hg
      exact ⟨j, hj, by simpa using hm, hg⟩
    · intro j hj hm
      have := (countOddTrue_eq_zero_iff _ 0).mp hzero j (by simpa using hj) (by simpa using hm)
      rwa [getD_map_rowHasNum _ _ hj] at this
  · rintro ⟨hge, ⟨j, hj, hm, hg⟩, hall⟩
    refine ⟨hge, ?_, ?_⟩
    · refine (countEvenTrue_pos_iff _ 0).mpr ⟨j, by simpa using hj, by simpa using hm, ?_⟩
      rwa [getD_map_rowHasNum _ _ hj]
    · refine (countOddTrue_eq_zero_iff _ 0).mpr (fun j hj hm => ?_)
      rw [List.length_map] at hj
      rw [getD_map_rowHasNum _ _ hj]
      exact hall j hj (by simpa using hm)

/-- C3 amended: on a figure input with at least one structured row line, the
row-doubling correction fires exactly under the claim's three conditions
(parsed row count at least 1.8 times the first row's token count, some
even-indexed row with a purely numeric token, no odd-indexed row with one),
and the output height is then the parsed row count halved rounded up — not
exactly half, which fails at odd counts — and the raw parsed row count
otherwise. -/
theorem rowDoubling_height_amended (md : String) (r0 : List (List Char))
    (rest : List (List (List Char)))
    (hrows : figureParsedRows ((extractWrapped md.data).getD md.data) = r0 :: rest) :
    (parseFigureDescription md).gridSize.2 =
      if 5 * (r0 :: rest).length ≥ 9 * r0.length
          ∧ (∃ j, j < (r0 :: rest).length ∧ j % 2 = 0
              ∧ rowHasNum ((r0 :: rest).getD j []) = true)
          ∧ (∀ j, j < (r0 :: rest).length → j % 2 = 1
              → rowHasNum ((r0 :: rest).getD j []) = false)
      then ((r0 :: rest).length + 1) / 2
      else (r0 :: rest).length := by
  have hgs : (parseFigureDescription md).gridSize.2
      = (if isDoubledRows (r0 :: rest) r0.length then filterEvenIdx (r0 :: rest) 0
         else r0 :: rest).length := by
    unfold parseFigureDescription
    dsimp only
    rw [hrows]
  by_cases hd : isDoubledRows (r0 :: rest) r0.length = true
  · rw [hgs, if_pos hd, if_pos ((isDoubledRows_iff r0 rest r0.length).mp hd)]
    rw [filterEvenIdx_length]
    simp
  · rw [hgs, if_neg (by simpa using hd),
      if_neg (fun hc => hd ((isDoubledRows_iff r0 rest r0.length).mpr hc))]

/-- C3 counterexample: a figure input with three structured rows on which the
correction fires, while twice the output height differs from the parsed row
count, so the height is not exactly half of it. -/
theorem rowDoubling_half_counterexample :
    (figureParsedRows (("Row 1: 1\nRow 2: x\nRow 3: y" : String).data)).length = 3
    ∧ isDoubledRows (figureParsedRows (("Row 1: 1\nRow 2: x\nRow 3: y" : String).data))
        ((figureParsedRows (("Row 1: 1\nRow 2: x\nRow 3: y" : String).data)).headD []).length
        = true
    ∧ (parseFigureDescription "Row 1: 1\nRow 2: x\nRow 3: y").gridSize.2 = 2
    ∧ 2 * (parseFigureDescription "Row 1: 1\nRow 2: x\nRow 3: y").gridSize.2 ≠ 3 := by
  decide

/-- C3 witness: a two-row doubled figure input on which the amended height
formula is realised. -/
theorem rowDoubling_height_amended_witness :
    figureParsedRows ((extractWrapped ("Row 1: 1\nRow 2: x" : String).data).getD
        ("Row 1: 1\nRow 2: x" : String).data) = [['1']] :: [[['x']]]
    ∧ (parseFigureDescription "Row 1: 1\nRow 2: x").gridSize.2 =
      if 5 * ([['1']] :: [[['x']]]).length ≥ 9 * ([['1']] : List (List Char)).length
          ∧ (∃ j, j < ([['1']] :: [[['x']]]).length ∧ j % 2 = 0
              ∧ rowHasNum (([['1']] :: [[['x']]]).getD j []) = true)
          ∧ (∀ j, j < ([['1']] :: [[['x']]]).length → j % 2 = 1
              → rowHasNum (([['1']] :: [[['x']]]).getD j []) = false)
      then (([['1']] :: [[['x']]]).length + 1) / 2
      else ([['1']] :: [[['x']]]).length :=
  ⟨by decide, rowDoubling_height_amended "Row 1: 1\nRow 2: x" [['1']] [[['x']]] (by decide)⟩

/-- C4 counterexample: a figure input with positive dimensions carrying a
black cell whose column is not below the width. -/
theorem blackCells_bounds_counterexample :
    0 < (parseFigureDescription "Row 1: a, b\nRow 2: c, d, black").gridSize.1
    ∧ 0 < (parseFigureDescription "Row 1: a, b\nRow 2: c, d, black").gridSize.2
    ∧ (1, 2) ∈ (parseFigureDescription "Row 1: a, b\nRow 2: c, d, black").blackCells
    ∧ ¬ ((2 : Nat) < (parseFigureDescription "Row 1: a, b\nRow 2: c, d, black").gridSize.1) := by
  decide

/-- C4 witness: the amended bound realised on a one-cell table (fallback
positions) and a one-cell figure row. -/
theorem blackCells_within_bounds_amended_witness :
    (∀ r ∈ matchAllTr ("<tr><td id=\"a\">dark</td></tr>" : String).data,
        (matchAllTd r).length
          ≤ (parseTableMarkdown "<tr><td id=\"a\">dark</td></tr>" []).gridSize.1)
    ∧ (∀ p ∈ (parseTableMarkdown "<tr><td id=\"a\">dark</td></tr>" []).blackCells,
        p.1 < (parseTableMarkdown "<tr><td id=\"a\">dark</td></tr>" []).gridSize.2
          ∧ p.2 < (parseTableMarkdown "<tr><td id=\"a\">dark</td></tr>" []).gridSize.1)
    ∧ (∀ r ∈ figureParsedRows ((extractWrapped ("Row 1: black" : String).data).getD
          ("Row 1: black" : String).data),
        r.length ≤ (parseFigureDescription "Row 1: black").gridSize.1)
    ∧ (∀ p ∈ (parseFigureDescription "Row 1: black").blackCells,
        p.1 < (parseFigureDescription "Row 1: black").gridSize.2
          ∧ p.2 < (parseFigureDescription "Row 1: black").gridSize.1) :=
  ⟨by decide,
   blackCells_within_bounds_amended.1 "<tr><td id=\"a\">dark</td></tr>" []
     (by decide) (by intro p hp; simp at hp),
   by decide,
   blackCells_within_bounds_amended.2 "Row 1: black" (by decide)⟩

/-- C5 counterexample: a cell whose id has no grounding position, whose text
is the isolated uppercase letter A without a square substring; the parser
falls back to the literal scan position and records no pre-filled letter. -/
theorem preFilled_fallback_counterexample :
    extractId ("<td id=\"a\">A</td>".data) = some ['a']
    ∧ isolatedUpper (trimC (stripTags ("<td id=\"a\">A</td>".data))) = some 'A'
    ∧ containsSub ('s' :: 'q' :: 'u' :: 'a' :: 'r' :: 'e' :: [])
        (trimC (stripTags ("<td id=\"a\">A</td>".data))) = false
    ∧ (parseTableMarkdown "<tr><td id=\"a\">A</td></tr>" []).preFilledLetters = [] := by
  decide

/-- C5 witness: the grounded-letter rule realised on a concrete cell. -/
theorem preFilled_grounded_letter_witness :
    extractId ("<td id=\"a\">A</td>".data) = some ['a']
    ∧ getKey [("a", (⟨some (0, 0)⟩ : GroundingEntry))] (String.mk ['a'])
        = some (⟨some (0, 0)⟩ : GroundingEntry)
    ∧ getKey (processTableCell [("a", (⟨some (0, 0)⟩ : GroundingEntry))] 0 0
          ("<td id=\"a\">A</td>".data) ⟨0, [], [], []⟩).preFilledLetters
        (posKey 0 0) = some (String.mk ['A']) :=
  ⟨by decide, by decide,
   preFilled_grounded_letter [("a", ⟨some (0, 0)⟩)] 0 0 ("<td id=\"a\">A</td>".data)
     ⟨0, [], [], []⟩ ['a'] ⟨some (0, 0)⟩ 0 0 'A'
     (by decide) (by decide) rfl (by decide) (by decide)⟩

/-- C6 witness: the row-by-cell dimensions realised on a two-row one-column
table. -/
theorem table_gridSize_MN_witness :
    matchAllTr ("<tr><td id=\"a\">x</td></tr><tr><td id=\"b\">y</td></tr>" : String).data
        = ("<tr><td id=\"a\">x</td></tr>" : String).data
          :: [("<tr><td id=\"b\">y</td></tr>" : String).data]
    ∧ (parseTableMarkdown "<tr><td id=\"a\">x</td></tr><tr><td id=\"b\">y</td></tr>" []).gridSize
        = (1, (("<tr><td id=\"a\">x</td></tr>" : String).data
            :: [("<tr><td id=\"b\">y</td></tr>" : String).data]).length) :=
  ⟨by decide,
   table_gridSize_MN "<tr><td id=\"a\">x</td></tr><tr><td id=\"b\">y</td></tr>" [] 1
     (("<tr><td id=\"a\">x</td></tr>" : String).data)
     [("<tr><td id=\"b\">y</td></tr>" : String).data]
     (by decide) (by decide) (by decide)⟩

/-- C2 witness: the derivation rule realised on a one-table-chunk response
whose grid parser finds a clue number (so derivation must not run). -/
theorem clueNumbers_derivation_rule_witness :
    gridExtractionOf ⟨[⟨"table", "<tr><td id=\"a\">1</td></tr>"⟩], []⟩
        = some (parseTableMarkdown "<tr><td id=\"a\">1</td></tr>" [])
    ∧ transformLandingAIResponse ⟨[⟨"table", "<tr><td id=\"a\">1</td></tr>"⟩], []⟩
        = Except.ok
          { gridSize := (parseTableMarkdown "<tr><td id=\"a\">1</td></tr>" []).gridSize
            blackCells := (parseTableMarkdown "<tr><td id=\"a\">1</td></tr>" []).blackCells
            clueNumbers :=
              if (parseTableMarkdown "<tr><td id=\"a\">1</td></tr>" []).clueNumbers = [] then
                deriveCluePositions
                  (parseTableMarkdown "<tr><td id=\"a\">1</td></tr>" []).gridSize
                  (parseTableMarkdown "<tr><td id=\"a\">1</td></tr>" []).blackCells
                  (clueSetOf ⟨[⟨"table", "<tr><td id=\"a\">1</td></tr>"⟩], []⟩).acrossClues
                  (clueSetOf ⟨[⟨"table", "<tr><td id=\"a\">1</td></tr>"⟩], []⟩).downClues
              else (parseTableMarkdown "<tr><td id=\"a\">1</td></tr>" []).clueNumbers
            preFilledLetters :=
              (parseTableMarkdown "<tr><td id=\"a\">1</td></tr>" []).preFilledLetters
            acrossClues :=
              (clueSetOf ⟨[⟨"table", "<tr><td id=\"a\">1</td></tr>"⟩], []⟩).acrossClues
            downClues :=
              (clueSetOf ⟨[⟨"table", "<tr><td id=\"a\">1</td></tr>"⟩], []⟩).downClues } :=
  ⟨rfl, clueNumbers_derivation_rule ⟨[⟨"table", "<tr><td id=\"a\">1</td></tr>"⟩], []⟩
    (parseTableMarkdown "<tr><td id=\"a\">1</td></tr>" []) rfl⟩
